import Mathlib

/-!
game0_server: the Client actor of the chat core.

A shallow embedding of `src/domain/client.go` and `src/domain/message.go`.

* Pointers are modelled by `Option` (nil is `none`).
* A channel send is recorded as an `Event` appended to the trace of the
  goroutine that performs it; the trace is kept oldest first.
* A nil pointer dereference is the `Outcome.panic` result: the goroutine
  panics in the state it had reached.
* The Hub and the Room are defined in `hub.go` and `room.go`, which are
  missing; the few things the Client code needs from them are modelled from
  the specification and marked as such.
* `json.Unmarshal`, `uuid.New`, the websocket connection and the HTTP upgrade
  are library code: their results are inputs of the model.
-/

set_option linter.dupNamespace false
set_option linter.unusedVariables false

namespace Domain

/-! Data model -/

/-- The payload type of the outbound queue (Go `[]byte`). -/
abbrev Bytes := String

/-- The text of a `uuid.UUID`. -/
abbrev UUID := String

/-- A handle for a `*websocket.Conn`. -/
abbrev Conn := Nat

/-- The identity of a Room owned by the Hub (a non-nil Go `*Room`). -/
abbrev RoomRef := Nat

/-- From message.go: the three action tags. -/
def SendMessageAction : String := "send-message"

/-- From message.go. -/
def JoinRoomAction : String := "join-room"

/-- From message.go. -/
def LeaveRoomAction : String := "leave-room"

/-- Modelled from the spec: the Room value that the JSON decoder allocates for
the wire member `target` (room.go is missing). The spec gives the member as a
room identifier, `"target":{"id":"lobby"}`; `ID` is that identifier. -/
structure Room where
  ID : String
deriving DecidableEq, Repr

/-- Modelled from the spec: `GetId` on a `*Room` (room.go is missing). It reads
the identifier of the room it is called on, so a nil receiver is a nil pointer
dereference, rendered as `none`. -/
def Room.GetId : Option Room → Option String
  | none => none
  | some room => some room.ID

/-- A Go `*Client`. `conn` is the Client that `NewClient` allocated for a live
connection, named by its fields `ID` and `Name`; `decoded` is a Client value
that the JSON decoder allocated for the wire member `sender`. -/
inductive ClientRef where
  | conn (ID : UUID) (Name : String)
  | decoded (ID : UUID) (Name : String)
deriving DecidableEq, Repr

/-- From message.go: `Message`. `Target` and `Sender` are pointers. -/
structure Message where
  Action : String
  Message : String
  Target : Option Room
  Sender : Option ClientRef
deriving DecidableEq, Repr

/-- Modelled from the spec: the Hub (hub.go is missing). The spec gives it a
mapping from room name to Room with unique keys; `allocated` counts the rooms
ever created and supplies the identity of the next one. -/
structure Hub where
  rooms : List (String × RoomRef)
  allocated : Nat
deriving DecidableEq, Repr

/-- Modelled from the spec: `findRoomByName(name) -> Room | absent`, a pure
lookup with no mutation (hub.go is missing). -/
def Hub.findRoomByName (hub : Hub) (name : String) : Option RoomRef :=
  hub.rooms.lookup name

/-- Modelled from the spec: `createRoom(name) -> Room` creates and registers a
new Room under `name` (hub.go is missing). The new room replaces whatever the
mapping held under that key, so keys stay unique. -/
def Hub.createRoom (hub : Hub) (name : String) : Hub × RoomRef :=
  ({ rooms := (name, hub.allocated) :: hub.rooms.filter (fun kv => kv.1 != name),
     allocated := hub.allocated + 1 },
   hub.allocated)

/-- A Go channel of `[]byte`: its capacity, the values held in its buffer and
the values of the goroutines blocked in a send (the send queue), oldest
first. -/
structure Chan where
  cap : Nat
  buf : List Bytes
  sendq : List Bytes
deriving DecidableEq, Repr

/-- Go `make(chan []byte)` and `make(chan []byte, cap)`. -/
def Chan.make (cap : Nat) : Chan := { cap := cap, buf := [], sendq := [] }

/-- Go `len(ch)`: the number of values in the buffer. Blocked senders are not
counted. -/
def Chan.len (ch : Chan) : Nat := ch.buf.length

/-- Go `ch <- v` seen from the channel: the value enters the buffer when there
is room and otherwise waits in the send queue. -/
def Chan.send (ch : Chan) (v : Bytes) : Chan :=
  if ch.buf.length < ch.cap then { ch with buf := ch.buf ++ [v] }
  else { ch with sendq := ch.sendq ++ [v] }

/-- Go `<-ch`: `none` when the receive blocks. With a buffered value the head
of the buffer is taken and the oldest blocked sender moves into the buffer;
with an empty buffer the value of the oldest blocked sender is handed over. -/
def Chan.recv (ch : Chan) : Option (Bytes × Chan) :=
  match ch.buf, ch.sendq with
  | m :: rest, [] => some (m, { ch with buf := rest })
  | m :: rest, v :: q => some (m, { ch with buf := rest ++ [v], sendq := q })
  | [], v :: q => some (v, { ch with sendq := q })
  | [], [] => none

/-- Every message that is waiting in the channel, in the order in which
receives will deliver them. -/
def Chan.pending (ch : Chan) : List Bytes := ch.buf ++ ch.sendq

/-- From client.go: `Client`. `Rooms` is the key set of the Go
`map[*Room]bool` (the only flag ever stored is `true`); a key may be the nil
pointer. `wsServer` holds the Hub it points to. -/
structure Client where
  ws : Conn
  wsServer : Option Hub
  sendCh : Chan
  Rooms : List (Option RoomRef)
  ID : UUID
  Name : String
deriving DecidableEq, Repr

/-- The pointer to a live Client. -/
def Client.ref (client : Client) : ClientRef := .conn client.ID client.Name

/-- From client.go: `NewClient`. `id` is the result of `uuid.New()`. The
`wsServer` field is not among the fields the source sets. -/
def NewClient (id : UUID) (ws : Conn) (name : String) : Client :=
  { ID := id, ws := ws, sendCh := Chan.make 0, Rooms := [], Name := name,
    wsServer := none }

/-- From client.go: `GetName`. -/
def Client.GetName (client : Client) : String := client.Name

/-- The lines the code writes to the log. -/
inductive LogLine where
  | unmarshalError (err : String)
  | unexpectedClose
  | missingName
  | upgradeError
deriving DecidableEq, Repr

/-- What a goroutine does to the world outside the Client. -/
inductive Event where
  | log (line : LogLine)
  | roomRegister (room : RoomRef) (client : ClientRef)
  | roomUnregister (room : RoomRef) (client : ClientRef)
  | roomBroadcast (room : RoomRef) (message : Message)
  | hubRegister (client : ClientRef)
  | hubUnregister (client : ClientRef)
  | wsClose (ws : Conn)
  | upgrade (ws : Conn)
  | goWriteLoop (client : ClientRef)
  | goReadLoop (client : ClientRef)
deriving DecidableEq, Repr

/-- The Client together with what its goroutine has done so far. -/
structure State where
  client : Client
  trace : List Event
deriving DecidableEq, Repr

/-- Record one more event. -/
def State.emit (s : State) (e : Event) : State := { s with trace := s.trace ++ [e] }

/-- How a call ends: it returns, or the goroutine panics on a nil pointer. -/
inductive Outcome where
  | done (s : State)
  | panic (s : State)
deriving DecidableEq, Repr

/-- The state in which the call ended. -/
def Outcome.state : Outcome → State
  | .done s => s
  | .panic s => s

/-- Go `m[key] = true` on the key set. -/
def mapInsert (keys : List (Option RoomRef)) (key : Option RoomRef) : List (Option RoomRef) :=
  if key ∈ keys then keys else keys ++ [key]

/-- Go `delete(m, key)` on the key set. -/
def mapDelete (keys : List (Option RoomRef)) (key : Option RoomRef) : List (Option RoomRef) :=
  keys.filter (fun k => k != key)

/-! Message handlers -/

/-- From client.go: `handleJoinRoomMessage`. -/
def handleJoinRoomMessage (s : State) (message : Message) : Outcome :=
  let roomName := message.Message
  match s.client.wsServer with
  | none => .panic s
  | some hub =>
    let found : Hub × RoomRef :=
      match hub.findRoomByName roomName with
      | some room => (hub, room)
      | none => hub.createRoom roomName
    let client := { s.client with
      wsServer := some found.1, Rooms := mapInsert s.client.Rooms (some found.2) }
    .done ({ s with client := client }.emit (.roomRegister found.2 client.ref))

/-- From client.go: `handleLeaveRoomMessage`. The send on `room.unregister`
is not guarded: with a nil `room` it dereferences the nil pointer. -/
def handleLeaveRoomMessage (s : State) (message : Message) : Outcome :=
  match s.client.wsServer with
  | none => .panic s
  | some hub =>
    let room := hub.findRoomByName message.Message
    let s1 : State :=
      if room ∈ s.client.Rooms then
        { s with client := { s.client with Rooms := mapDelete s.client.Rooms room } }
      else s
    match room with
    | none => .panic s1
    | some r => .done (s1.emit (.roomUnregister r s1.client.ref))

/-- What `json.Unmarshal(jsonMessage, &message)` makes of an incoming byte
string: the contents it leaves in `message` (which starts as the zero value)
and the error it returns. On a syntax error nothing is decoded; on a value of
the wrong type for a field the decoder skips that field, decodes the others
and returns the type error. -/
structure Unmarshalled where
  message : Message
  err : Option String
deriving DecidableEq, Repr

/-- From client.go: `handleNewMessage`. The decode error is logged and the
function carries on with whatever was decoded. -/
def handleNewMessage (s : State) (jsonMessage : Unmarshalled) : Outcome :=
  let s0 : State :=
    match jsonMessage.err with
    | some err => s.emit (.log (.unmarshalError err))
    | none => s
  let message : Message := { jsonMessage.message with Sender := some s0.client.ref }
  if message.Action = SendMessageAction then
    match Room.GetId message.Target with
    | none => .panic s0
    | some roomName =>
      match s0.client.wsServer with
      | none => .panic s0
      | some hub =>
        match hub.findRoomByName roomName with
        | some room => .done (s0.emit (.roomBroadcast room message))
        | none => .done s0
  else if message.Action = JoinRoomAction then
    handleJoinRoomMessage s0 message
  else if message.Action = LeaveRoomAction then
    handleLeaveRoomMessage s0 message
  else .done s0

/-! Disconnect and the inbound loop -/

/-- The `for room := range c.Rooms` loop of `disconnect`. Go leaves the order
of a map iteration unspecified; the model visits the keys in the order of the
key list. -/
def disconnect.range (s : State) : List (Option RoomRef) → Outcome
  | [] => .done s
  | none :: _ => .panic s
  | some room :: rest => disconnect.range (s.emit (.roomUnregister room s.client.ref)) rest

/-- From client.go: `disconnect`; `unregister` is the global queue of the Hub. -/
def disconnect (s : State) : Outcome :=
  match disconnect.range (s.emit (.hubUnregister s.client.ref)) s.client.Rooms with
  | .done s1 => .done (s1.emit (.wsClose s1.client.ws))
  | .panic s1 => .panic s1

/-- What `c.ws.ReadMessage()` returns: a message, or an error. -/
inductive ReadResult where
  | message (jsonMsg : Unmarshalled)
  | error (unexpectedClose : Bool)
deriving DecidableEq, Repr

/-- From client.go: `ReadLoop`, run against the results of the successive
reads. `none` means the loop is still blocked in `ReadMessage`. The deferred
`disconnect` runs when the loop breaks and also when a handler panics. -/
def ReadLoop (s : State) : List ReadResult → Option Outcome
  | [] => none
  | .error unexpectedClose :: _ =>
    some (disconnect (if unexpectedClose then s.emit (.log .unexpectedClose) else s))
  | .message jsonMsg :: reads =>
    match handleNewMessage s jsonMsg with
    | .done s1 => ReadLoop s1 reads
    | .panic s1 => some (.panic (disconnect s1).state)

/-! The outbound loop -/

/-- The state of the inner loop of `WriteLoop`: the counter `i`, the channel
and the messages written into the open writer `w`, oldest first. -/
structure Drain where
  i : Nat
  sendCh : Chan
  w : List Bytes
deriving DecidableEq, Repr

/-- The inner loop of `WriteLoop`,
`for i := 0; i < len(c.sendCh); i++ { w.Write(<-c.sendCh) }`.
The condition reads `len(c.sendCh)` again before every iteration. The first
argument bounds the number of iterations. -/
def WriteLoop.drain : Nat → Drain → Drain
  | 0, d => d
  | fuel + 1, d =>
    if d.i < d.sendCh.len then
      match d.sendCh.recv with
      | some (m, ch) => WriteLoop.drain fuel { i := d.i + 1, sendCh := ch, w := d.w ++ [m] }
      | none => d
    else d

/-- How the connection answers one write transaction. -/
inductive WsWrite where
  | ok
  | nextWriterError
  | closeError
deriving DecidableEq, Repr

/-- What one pass through the body of the outer loop of `WriteLoop` does. -/
inductive Pass where
  | blocked
  | flushed (frame : List Bytes) (sendCh : Chan)
  | returned (sendCh : Chan)
deriving DecidableEq, Repr

/-- From client.go: the body of the outer `for` of `WriteLoop`. It takes one
message, opens a writer, writes the message, runs the inner loop and flushes
with `w.Close()`. The frame is the list of messages written between
`NextWriter` and `Close`. -/
def WriteLoop.pass (conn : WsWrite) (sendCh : Chan) : Pass :=
  match sendCh.recv with
  | none => .blocked
  | some (message, ch) =>
    match conn with
    | .nextWriterError => .returned ch
    | _ =>
      let d := WriteLoop.drain ch.len { i := 0, sendCh := ch, w := [message] }
      match conn with
      | .closeError => .returned d.sendCh
      | _ => .flushed d.w d.sendCh

/-- The result of `WriteLoop`: the frames it flushed, oldest first, what is
left in the channel, and whether it returned (and so closed the connection)
or is blocked on its empty queue. -/
structure Written where
  frames : List (List Bytes)
  sendCh : Chan
  closed : Bool
deriving DecidableEq, Repr

/-- From client.go: `WriteLoop`, run on the channel contents with no further
sends; `conn` scripts the answers of the connection, one per transaction, and
a connection with no script left answers `ok`. The first argument bounds the
number of passes. -/
def WriteLoop.loop : Nat → List WsWrite → Chan → List (List Bytes) → Option Written
  | 0, _, _, _ => none
  | fuel + 1, conn, sendCh, frames =>
    match WriteLoop.pass (conn.headD .ok) sendCh with
    | .blocked => some { frames := frames, sendCh := sendCh, closed := false }
    | .returned ch => some { frames := frames, sendCh := ch, closed := true }
    | .flushed frame ch => WriteLoop.loop fuel conn.tail ch (frames ++ [frame])

/-- From client.go: `WriteLoop`. Every pass takes at least one message, so one
pass more than there are pending messages is enough. -/
def WriteLoop (conn : List WsWrite) (client : Client) : Option Written :=
  WriteLoop.loop (client.sendCh.pending.length + 1) conn client.sendCh []

/-! Connection establishment -/

/-- The parts of the upgrade request that `ServeWs` looks at: the key and
value pairs of the query string in order of appearance, and what
`upgrader.Upgrade` returns for the request (a connection, or an error). -/
structure Request where
  query : List (String × String)
  upgrade : Option Conn
deriving DecidableEq, Repr

/-- Go `r.URL.Query()[key]`: the values given for the key, in order. The key is
present exactly when the list is not empty. -/
def Request.Query (r : Request) (key : String) : List String :=
  (r.query.filter (fun kv => kv.1 = key)).map (fun kv => kv.2)

/-- What `ServeWs` did: the Client it created, if any, and its effects. -/
structure Served where
  client : Option Client
  trace : List Event
deriving DecidableEq, Repr

/-- From client.go: `ServeWs`. `id` is the UUID that `uuid.New()` would hand to
`NewClient`. -/
def ServeWs (wsServer : Hub) (id : UUID) (r : Request) : Served :=
  match r.Query "name" with
  | [] => { client := none, trace := [.log .missingName] }
  | first :: _ =>
    if first.utf8ByteSize < 1 then { client := none, trace := [.log .missingName] }
    else
      match r.upgrade with
      | none => { client := none, trace := [.log .upgradeError] }
      | some conn =>
        let client := NewClient id conn first
        { client := some client,
          trace := [.upgrade conn, .goWriteLoop client.ref, .goReadLoop client.ref,
                    .hubRegister client.ref] }

/-! Auxiliary notions used to state the properties -/

/-- The calls of `handleNewMessage` that `ReadLoop` makes for the successive
messages it reads, up to the first panic. -/
def handleAll (s : State) : List Unmarshalled → Outcome
  | [] => .done s
  | jsonMsg :: rest =>
    match handleNewMessage s jsonMsg with
    | .done s1 => handleAll s1 rest
    | .panic s1 => .panic s1

/-- The events a message handler can produce: log lines and sends to a room.
Sends to the global queue of the Hub and the closing of the connection are not
among them. -/
def Event.fromHandler : Event → Bool
  | .log _ => true
  | .roomRegister _ _ => true
  | .roomUnregister _ _ => true
  | .roomBroadcast _ _ => true
  | _ => false

/-- One unregister of the client for every key of the room set, in the order
of the keys. -/
def unregisterAll (client : ClientRef) (keys : List (Option RoomRef)) : List Event :=
  keys.filterMap (fun key => key.map (fun room => Event.roomUnregister room client))

/-- What a handler call that takes the state `s` to the outcome `o` keeps: the
connection and the identity of the client, a room set without nil key and with
unique keys, and a trace that grows by handler events only. -/
def Keeps (s : State) (o : Outcome) : Prop :=
  o.state.client.ws = s.client.ws
  ∧ o.state.client.ref = s.client.ref
  ∧ (none ∉ s.client.Rooms → none ∉ o.state.client.Rooms)
  ∧ (s.client.Rooms.Nodup → o.state.client.Rooms.Nodup)
  ∧ ∃ ev, o.state.trace = s.trace ++ ev ∧ ∀ e ∈ ev, Event.fromHandler e = true

/-- How one event changes the most recent membership command that `client`
has sent to `room`: a register is `some true`, an unregister `some false`. -/
def commandStep (room : RoomRef) (client : ClientRef) (last : Option Bool) :
    Event → Option Bool
  | .roomRegister r c => if r = room ∧ c = client then some true else last
  | .roomUnregister r c => if r = room ∧ c = client then some false else last
  | _ => last

/-- The most recent membership command that `client` has sent to `room` in the
trace; `none` when it has sent none. -/
def lastCommand (room : RoomRef) (client : ClientRef) (trace : List Event) : Option Bool :=
  trace.foldl (commandStep room client) none

/-- Modelled from the spec: how the worker of a Room handles one command
(room.go is missing). `register` adds the client to the membership set and is
a no-op for a member; `unregister` removes the client if present. -/
def roomStep (room : RoomRef) (members : List ClientRef) : Event → List ClientRef
  | .roomRegister r c => if r = room then (if c ∈ members then members else members ++ [c])
      else members
  | .roomUnregister r c => if r = room then members.filter (fun m => m != c) else members
  | _ => members

/-- Modelled from the spec: the membership set of a Room, empty at first, after
its worker has applied in order the commands of the trace that are addressed
to it (room.go is missing). -/
def roomMembers (room : RoomRef) (trace : List Event) : List ClientRef :=
  trace.foldl (roomStep room) []

/-- The Hub after a join-room for the name has been handled: unchanged when the
room exists, with the room created otherwise. -/
def Hub.afterJoin (hub : Hub) (name : String) : Hub :=
  match hub.findRoomByName name with
  | some _ => hub
  | none => (hub.createRoom name).1

/-- The messages are join-room and leave-room messages only, and every
leave-room names a room that exists in the Hub at the time the message is
handled (rooms created by earlier joins of the sequence count). -/
def joinsAndLeaves (hub : Hub) : List Unmarshalled → Bool
  | [] => true
  | jsonMsg :: rest =>
    if jsonMsg.message.Action = JoinRoomAction then
      joinsAndLeaves (hub.afterJoin jsonMsg.message.Message) rest
    else if jsonMsg.message.Action = LeaveRoomAction then
      (hub.findRoomByName jsonMsg.message.Message).isSome && joinsAndLeaves hub rest
    else false

/-- The room set of the client agrees with the commands it has sent: a room is
a key exactly when the most recent command sent to it is a register. -/
def RoomsMatchCommands (s : State) : Prop :=
  ∀ room, some room ∈ s.client.Rooms ↔ lastCommand room s.client.ref s.trace = some true

/-! Sample data -/

/-- A Hub in which no room has been created. -/
def emptyHub : Hub := { rooms := [], allocated := 0 }

/-- The Client that `NewClient` makes for connection 1 and the name alice,
with its `wsServer` field then pointed at the empty Hub. -/
def alice : Client := { NewClient "c-1" 1 "alice" with wsServer := some emptyHub }

/-- The state of alice before the goroutine of this client has done anything. -/
def aliceStart : State := { client := alice, trace := [] }

/-- The JSON decoder, meeting a value that is not null for a nil pointer field,
first allocates the pointee: this is the zero Client it leaves in `Sender`. -/
def zeroClient : ClientRef := .decoded "00000000-0000-0000-0000-000000000000" ""

/-- The error `json.Unmarshal` returns for a number given where the struct
field `sender` wants an object. -/
def senderTypeError : String :=
  "json: cannot unmarshal number into Go struct field Message.sender of type domain.Client"

/-! Theorems -/

/-- A Go string has byte length below 1 exactly when it is the empty string. -/
theorem utf8ByteSize_lt_one (s : String) : s.utf8ByteSize < 1 ↔ s = "" := by
  obtain ⟨cs⟩ := s
  cases cs with
  | nil => exact ⟨fun _ => rfl, fun _ => by decide⟩
  | cons c cs =>
    constructor
    · intro h
      have hc := Char.utf8Size_pos c
      have h1 : String.utf8ByteSize ⟨c :: cs⟩
          = String.utf8ByteSize.go cs + c.utf8Size := rfl
      omega
    · intro h
      exact absurd (congrArg String.data h) (by simp)

/-- C1. The code does not guard the leave of an unknown room. On the empty Hub
the leave-room message naming the room lobby makes `handleLeaveRoomMessage`
panic on the nil room (the client and the trace are as before) instead of
returning. -/
theorem handleLeaveRoomMessage_unknown_room_panics :
    handleLeaveRoomMessage aliceStart
        { Action := LeaveRoomAction, Message := "lobby", Target := none, Sender := none }
      = .panic aliceStart := by
  decide

/-- C2. A message whose decoding failed is still dispatched. For the wire text
`{"action":"join-room","message":"lobby","sender":5}` the decoder returns a
type error for `sender` and leaves action and message set; `handleNewMessage`
logs the error and then performs the join: the room lobby is created, it enters
the room set of the client and a register is sent to it. -/
theorem handleNewMessage_dispatches_after_decode_error :
    handleNewMessage aliceStart
        { message := { Action := JoinRoomAction, Message := "lobby", Target := none,
                       Sender := some zeroClient },
          err := some senderTypeError }
      = .done
          { client := { alice with
              wsServer := some { rooms := [("lobby", 0)], allocated := 1 },
              Rooms := [some 0] },
            trace := [.log (.unmarshalError senderTypeError),
                      .roomRegister 0 (.conn "c-1" "alice")] } := by
  decide

/-- C4. A send-message without a target is not dropped. For the wire text
`{"action":"send-message","message":"hi"}` the decoded `Target` is nil and
`handleNewMessage` panics in `message.Target.GetId()` instead of returning. -/
theorem handleNewMessage_send_without_target_panics :
    handleNewMessage aliceStart
        { message := { Action := SendMessageAction, Message := "hi", Target := none,
                       Sender := none },
          err := none }
      = .panic aliceStart := by
  decide

/-- C5. `WriteLoop` does not coalesce everything that is queued. On the channel
that `NewClient` makes (capacity 0) with two senders waiting, the pass that
takes m0 flushes the frame [m0] while m1 is still pending (n = 1). On a
channel of capacity 4 that holds m0, m1, m2 the pass flushes [m0, m1] while m2
is still pending (n = 2), because the loop bound is read again after every
receive. -/
theorem WriteLoop_pass_leaves_queued_messages :
    WriteLoop.pass .ok (((NewClient "c-1" 1 "alice").sendCh.send "m0").send "m1")
        = .flushed ["m0"] { cap := 0, buf := [], sendq := ["m1"] }
    ∧ WriteLoop.pass .ok ((((Chan.make 4).send "m0").send "m1").send "m2")
        = .flushed ["m0", "m1"] { cap := 4, buf := ["m2"], sendq := [] } := by
  decide

/-- C8. The join-room handler does not find or create a room on the clients the
program makes. For the request `/ws?name=alice` `ServeWs` creates the Client
with `NewClient`, whose `wsServer` is nil; the join-room message for the room
lobby then panics in the lookup through the nil Hub, both when handed to
`handleJoinRoomMessage` and when it arrives through `handleNewMessage`: no
room is created, the room set stays empty and no register is sent. -/
theorem handleJoinRoomMessage_served_client_panics :
    (ServeWs emptyHub "c-1" { query := [("name", "alice")], upgrade := some 1 }).client
        = some (NewClient "c-1" 1 "alice")
    ∧ handleJoinRoomMessage { client := NewClient "c-1" 1 "alice", trace := [] }
          { Action := JoinRoomAction, Message := "lobby", Target := none, Sender := none }
        = .panic { client := { ws := 1, wsServer := none, sendCh := Chan.make 0, Rooms := [],
                               ID := "c-1", Name := "alice" },
                   trace := [] }
    ∧ handleNewMessage { client := NewClient "c-1" 1 "alice", trace := [] }
          { message := { Action := JoinRoomAction, Message := "lobby", Target := none,
                         Sender := none },
            err := none }
        = .panic { client := { ws := 1, wsServer := none, sendCh := Chan.make 0, Rooms := [],
                               ID := "c-1", Name := "alice" },
                   trace := [] } := by
  decide

/-- C10. `NewClient` leaves `wsServer` nil, and `ServeWs` starts the loops of and
registers exactly that Client, so every join-room, leave-room and send-message
it then handles panics on the nil Hub. -/
theorem NewClient_wsServer_nil (wsServer : Hub) (id : UUID) (ws : Conn) (name : String)
    (message : Message) :
    (NewClient id ws name).wsServer = none
    ∧ (ServeWs wsServer id { query := [("name", "alice")], upgrade := some ws }).client
        = some (NewClient id ws "alice")
    ∧ handleJoinRoomMessage { client := NewClient id ws name, trace := [] } message
        = .panic { client := NewClient id ws name, trace := [] }
    ∧ handleLeaveRoomMessage { client := NewClient id ws name, trace := [] } message
        = .panic { client := NewClient id ws name, trace := [] }
    ∧ handleNewMessage { client := NewClient id ws name, trace := [] }
          { message := { message with Action := SendMessageAction, Target := some ⟨"lobby"⟩ },
            err := none }
        = .panic { client := NewClient id ws name, trace := [] } := by
  refine ⟨rfl, ?_, rfl, rfl, ?_⟩
  · have h : ¬ ("alice".utf8ByteSize < 1) := by decide
    simp [ServeWs, Request.Query, h]
  · simp [handleNewMessage, Room.GetId, NewClient]

/-- C3. A decoded send-message whose target resolves to a room is put on the
broadcast queue of that room with `Sender` set to the receiving client, and a
second message that differs from it only in `Sender` leads to exactly the same
result. -/
theorem handleNewMessage_sender_overwritten (s : State) (hub : Hub) (room : RoomRef)
    (target : Room) (m1 m2 : Message)
    (hhub : s.client.wsServer = some hub)
    (hact : m1.Action = SendMessageAction)
    (htarget : m1.Target = some target)
    (hroom : hub.findRoomByName target.ID = some room)
    (hsame : m2.Action = m1.Action ∧ m2.Message = m1.Message ∧ m2.Target = m1.Target) :
    handleNewMessage s { message := m1, err := none }
        = .done (s.emit (.roomBroadcast room { m1 with Sender := some s.client.ref }))
    ∧ handleNewMessage s { message := m2, err := none }
        = handleNewMessage s { message := m1, err := none } := by
  obtain ⟨h1, h2, h3⟩ := hsame
  constructor
  · simp [handleNewMessage, hact, htarget, Room.GetId, hhub, hroom]
  · simp [handleNewMessage, h1, h2, h3]

/-- Witness for C3: a wire sender that names somebody else is overwritten. -/
theorem handleNewMessage_sender_overwritten_witness :
    handleNewMessage
        { client := { alice with wsServer := some { rooms := [("lobby", 0)], allocated := 1 } },
          trace := [] }
        { message := { Action := SendMessageAction, Message := "hi", Target := some ⟨"lobby"⟩,
                       Sender := some (.decoded "c-9" "mallory") },
          err := none }
      = handleNewMessage
        { client := { alice with wsServer := some { rooms := [("lobby", 0)], allocated := 1 } },
          trace := [] }
        { message := { Action := SendMessageAction, Message := "hi", Target := some ⟨"lobby"⟩,
                       Sender := none },
          err := none } :=
  (handleNewMessage_sender_overwritten
    { client := { alice with wsServer := some { rooms := [("lobby", 0)], allocated := 1 } },
      trace := [] }
    { rooms := [("lobby", 0)], allocated := 1 } 0 ⟨"lobby"⟩
    { Action := SendMessageAction, Message := "hi", Target := some ⟨"lobby"⟩, Sender := none }
    { Action := SendMessageAction, Message := "hi", Target := some ⟨"lobby"⟩,
      Sender := some (.decoded "c-9" "mallory") }
    rfl rfl rfl (by decide) ⟨rfl, rfl, rfl⟩).2

/-- C7. A request with no `name` parameter, or whose first `name` value is
empty, is rejected by `ServeWs` with nothing but a log line: no upgrade, no
Client, no loop started and no register sent. Whenever `ServeWs` does send a
register to the Hub, the registered Client is the one it created with
`NewClient`, and its name is the first `name` value and is not empty. -/
theorem ServeWs_requires_name (wsServer : Hub) (id : UUID) (r : Request) :
    (((r.Query "name").head? = none ∨ (r.Query "name").head? = some "") →
        ServeWs wsServer id r = { client := none, trace := [.log .missingName] })
    ∧ (∀ c, Event.hubRegister c ∈ (ServeWs wsServer id r).trace →
        ∃ first conn, (r.Query "name").head? = some first ∧ first ≠ "" ∧
          r.upgrade = some conn ∧
          (ServeWs wsServer id r).client = some (NewClient id conn first) ∧
          c = (NewClient id conn first).ref ∧
          (NewClient id conn first).Name = first) := by
  constructor
  · intro h
    unfold ServeWs
    cases hq : r.Query "name" with
    | nil => rfl
    | cons first rest =>
      rw [hq] at h
      have hfirst : first = "" := by simpa using h
      have hlen : first.utf8ByteSize < 1 := (utf8ByteSize_lt_one first).2 hfirst
      simp [hlen]
  · intro c hc
    unfold ServeWs at hc ⊢
    cases hq : r.Query "name" with
    | nil => simp [hq] at hc
    | cons first rest =>
      by_cases hlen : first.utf8ByteSize < 1
      · simp [hq, hlen] at hc
      · have hne : first ≠ "" := fun h => hlen ((utf8ByteSize_lt_one first).2 h)
        cases hu : r.upgrade with
        | none => simp [hq, hlen, hu] at hc
        | some conn =>
          simp only [hq, hlen, hu, if_false] at hc ⊢
          simp at hc
          exact ⟨first, conn, rfl, hne, rfl, rfl, hc, rfl⟩

/-- Witness for C7: a request whose first `name` value is empty is rejected
even though a second value and a working upgrade are at hand. -/
theorem ServeWs_requires_name_witness :
    ServeWs emptyHub "c-1" { query := [("name", ""), ("name", "bob")], upgrade := some 1 }
      = { client := none, trace := [.log .missingName] } :=
  (ServeWs_requires_name emptyHub "c-1"
    { query := [("name", ""), ("name", "bob")], upgrade := some 1 }).1 (Or.inr (by decide))

/-- Membership in the key set after Go `m[key] = true`. -/
theorem mem_mapInsert (keys : List (Option RoomRef)) (key k : Option RoomRef) :
    k ∈ mapInsert keys key ↔ k = key ∨ k ∈ keys := by
  unfold mapInsert
  by_cases h : key ∈ keys
  · simp only [h, if_true]
    constructor
    · exact Or.inr
    · rintro (rfl | hk)
      · exact h
      · exact hk
  · simp only [h, if_false, List.mem_append, List.mem_singleton]
    exact or_comm

/-- Membership in the key set after Go `delete(m, key)`. -/
theorem mem_mapDelete (keys : List (Option RoomRef)) (key k : Option RoomRef) :
    k ∈ mapDelete keys key ↔ k ≠ key ∧ k ∈ keys := by
  simp [mapDelete, and_comm]

/-- Inserting a key that is present changes nothing. -/
theorem mapInsert_of_mem (keys : List (Option RoomRef)) (key : Option RoomRef)
    (h : key ∈ keys) : mapInsert keys key = keys := by
  simp [mapInsert, h]

/-- After `createRoom` the lookup of the name finds the new room. -/
theorem findRoomByName_createRoom (hub : Hub) (name : String) :
    (hub.createRoom name).1.findRoomByName name = some (hub.createRoom name).2 := by
  simp [Hub.createRoom, Hub.findRoomByName, List.lookup]

/-- The result of `handleJoinRoomMessage` when the lookup finds the room. -/
theorem handleJoinRoomMessage_found (s : State) (hub : Hub) (message : Message)
    (room : RoomRef) (hhub : s.client.wsServer = some hub)
    (hfind : hub.findRoomByName message.Message = some room) :
    handleJoinRoomMessage s message
      = .done { client := { s.client with
                  wsServer := some hub, Rooms := mapInsert s.client.Rooms (some room) },
                trace := s.trace ++ [.roomRegister room s.client.ref] } := by
  simp only [handleJoinRoomMessage, hhub, hfind]
  rfl

/-- The result of `handleJoinRoomMessage` when the lookup finds no room. -/
theorem handleJoinRoomMessage_created (s : State) (hub : Hub) (message : Message)
    (hhub : s.client.wsServer = some hub)
    (hfind : hub.findRoomByName message.Message = none) :
    handleJoinRoomMessage s message
      = .done { client := { s.client with
                  wsServer := some (hub.createRoom message.Message).1,
                  Rooms := mapInsert s.client.Rooms (some (hub.createRoom message.Message).2) },
                trace := s.trace
                  ++ [.roomRegister (hub.createRoom message.Message).2 s.client.ref] } := by
  simp only [handleJoinRoomMessage, hhub, hfind]
  rfl

/-- A second join of a room whose key the first join has put into the room set
changes neither the Hub nor the room set. -/
theorem handleJoinRoomMessage_again (client : Client) (trace : List Event) (hub1 : Hub)
    (message : Message) (room : RoomRef)
    (hfind : hub1.findRoomByName message.Message = some room) :
    ∃ s2, handleJoinRoomMessage
            { client := { client with
                wsServer := some hub1, Rooms := mapInsert client.Rooms (some room) },
              trace := trace } message = .done s2
      ∧ s2.client = { client with
          wsServer := some hub1, Rooms := mapInsert client.Rooms (some room) }
      ∧ s2.trace = trace ++ [.roomRegister room client.ref] := by
  have hmem : some room ∈ mapInsert client.Rooms (some room) :=
    (mem_mapInsert _ _ _).2 (Or.inl rfl)
  refine ⟨_, handleJoinRoomMessage_found _ hub1 message room rfl hfind, ?_, ?_⟩
  · simp [mapInsert_of_mem _ _ hmem]
  · simp [Client.ref]

/-- The join logic on a client that has a Hub: `handleJoinRoomMessage` returns;
the Hub is untouched when the lookup finds the room and is the result of one
`createRoom` when it finds none; the keys of the room set afterwards are the
found or created room and the keys held before; one register for that room is
appended to the trace. Handling the same message again leaves the Hub and the
room set as the first call left them and appends one more register for the
same room. -/
theorem handleJoinRoomMessage_find_or_create (s : State) (hub : Hub) (message : Message)
    (hhub : s.client.wsServer = some hub) :
    ∃ room hub1 s1,
      handleJoinRoomMessage s message = .done s1
      ∧ s1.client.wsServer = some hub1
      ∧ (∀ found, hub.findRoomByName message.Message = some found →
          hub1 = hub ∧ room = found)
      ∧ (hub.findRoomByName message.Message = none →
          (hub1, room) = hub.createRoom message.Message)
      ∧ hub1.findRoomByName message.Message = some room
      ∧ (∀ key, key ∈ s1.client.Rooms ↔ key = some room ∨ key ∈ s.client.Rooms)
      ∧ s1.trace = s.trace ++ [.roomRegister room s.client.ref]
      ∧ ∃ s2, handleJoinRoomMessage s1 message = .done s2
          ∧ s2.client = s1.client
          ∧ s2.trace = s1.trace ++ [.roomRegister room s.client.ref] := by
  cases hfind : hub.findRoomByName message.Message with
  | some found =>
    refine ⟨found, hub, _, handleJoinRoomMessage_found s hub message found hhub hfind,
      rfl, ?_, ?_, hfind, ?_, rfl, ?_⟩
    · intro f hf
      exact ⟨rfl, Option.some.inj hf⟩
    · intro h
      cases h
    · intro key
      exact mem_mapInsert _ _ _
    · exact handleJoinRoomMessage_again s.client _ hub message found hfind
  | none =>
    have hfind1 := findRoomByName_createRoom hub message.Message
    refine ⟨(hub.createRoom message.Message).2, (hub.createRoom message.Message).1, _,
      handleJoinRoomMessage_created s hub message hhub hfind, rfl, ?_, ?_, hfind1, ?_, rfl, ?_⟩
    · intro f hf
      cases hf
    · intro _
      rfl
    · intro key
      exact mem_mapInsert _ _ _
    · exact handleJoinRoomMessage_again s.client _ _ message _ hfind1

/-- The join logic at a concrete input: alice, attached to the empty Hub, joins
the room lobby. -/
theorem handleJoinRoomMessage_find_or_create_witness :
    ∃ room hub1 s1,
      handleJoinRoomMessage aliceStart
          { Action := JoinRoomAction, Message := "lobby", Target := none, Sender := none }
        = .done s1
      ∧ s1.client.wsServer = some hub1
      ∧ (∀ found, emptyHub.findRoomByName "lobby" = some found →
          hub1 = emptyHub ∧ room = found)
      ∧ (emptyHub.findRoomByName "lobby" = none → (hub1, room) = emptyHub.createRoom "lobby")
      ∧ hub1.findRoomByName "lobby" = some room
      ∧ (∀ key, key ∈ s1.client.Rooms ↔ key = some room ∨ key ∈ aliceStart.client.Rooms)
      ∧ s1.trace = aliceStart.trace ++ [.roomRegister room aliceStart.client.ref]
      ∧ ∃ s2, handleJoinRoomMessage s1
            { Action := JoinRoomAction, Message := "lobby", Target := none, Sender := none }
          = .done s2
          ∧ s2.client = s1.client
          ∧ s2.trace = s1.trace ++ [.roomRegister room aliceStart.client.ref] :=
  handleJoinRoomMessage_find_or_create aliceStart emptyHub
    { Action := JoinRoomAction, Message := "lobby", Target := none, Sender := none } rfl

/-- The range loop of `disconnect` over keys that are all rooms sends one
unregister per key and returns. -/
theorem disconnect_range_eq (keys : List (Option RoomRef)) (s : State)
    (hnil : none ∉ keys) :
    disconnect.range s keys
      = .done { client := s.client,
                trace := s.trace ++ unregisterAll s.client.ref keys } := by
  induction keys generalizing s with
  | nil => simp [disconnect.range, unregisterAll]
  | cons key rest ih =>
    cases key with
    | none => exact absurd (List.mem_cons_self _ _) hnil
    | some room =>
      have hrest : none ∉ rest := fun h => hnil (List.mem_cons_of_mem _ h)
      simp only [disconnect.range]
      rw [ih _ hrest]
      simp [State.emit, unregisterAll]

/-- On a room set without a nil key, `disconnect` returns after the send to the
Hub, one unregister per room and the close, in this order. -/
theorem disconnect_eq (s : State) (hnil : none ∉ s.client.Rooms) :
    disconnect s
      = .done { client := s.client,
                trace := s.trace ++ (.hubUnregister s.client.ref
                  :: unregisterAll s.client.ref s.client.Rooms ++ [.wsClose s.client.ws]) } := by
  unfold disconnect
  rw [disconnect_range_eq _ _ (by simpa [State.emit] using hnil)]
  simp [State.emit]

/-- Every event of `unregisterAll` is an unregister of the client. -/
theorem mem_unregisterAll (client : ClientRef) (keys : List (Option RoomRef)) (e : Event)
    (h : e ∈ unregisterAll client keys) : ∃ room, e = .roomUnregister room client := by
  simp only [unregisterAll, List.mem_filterMap] at h
  obtain ⟨key, _, hkey⟩ := h
  cases key with
  | none => simp at hkey
  | some room => exact ⟨room, by simpa using hkey.symm⟩

/-- With unique keys, `unregisterAll` holds the unregister of a room once when
the room is a key and not at all otherwise. -/
theorem count_unregisterAll (client : ClientRef) (keys : List (Option RoomRef))
    (hnodup : keys.Nodup) (room : RoomRef) :
    (unregisterAll client keys).count (.roomUnregister room client)
      = if some room ∈ keys then 1 else 0 := by
  induction keys with
  | nil => simp [unregisterAll]
  | cons key rest ih =>
    have hrest := ih (List.nodup_cons.1 hnodup).2
    have hnot : key ∉ rest := (List.nodup_cons.1 hnodup).1
    cases key with
    | none =>
      have h1 : unregisterAll client (none :: rest) = unregisterAll client rest := by
        simp [unregisterAll]
      rw [h1, hrest]
      simp
    | some r =>
      have h1 : unregisterAll client (some r :: rest)
          = .roomUnregister r client :: unregisterAll client rest := by
        simp [unregisterAll]
      rw [h1, List.count_cons, hrest]
      by_cases hr : r = room
      · subst hr
        simp [hnot]
      · have hne : ¬ (Event.roomUnregister r client = Event.roomUnregister room client) := by
          intro h
          injection h with h2 _
          exact hr h2
        have hne2 : ¬ (some room = some r) := fun h => hr (Option.some.inj h).symm
        simp [hne, hne2]

/-- Go `m[key] = true` keeps the keys unique. -/
theorem nodup_mapInsert (keys : List (Option RoomRef)) (key : Option RoomRef)
    (h : keys.Nodup) : (mapInsert keys key).Nodup := by
  unfold mapInsert
  by_cases hk : key ∈ keys
  · simpa [hk] using h
  · simp only [hk, if_false]
    refine List.Nodup.append h (List.nodup_singleton key) ?_
    intro a ha ha1
    rw [List.mem_singleton] at ha1
    subst ha1
    exact hk ha

/-- Go `delete(m, key)` keeps the keys unique. -/
theorem nodup_mapDelete (keys : List (Option RoomRef)) (key : Option RoomRef)
    (h : keys.Nodup) : (mapDelete keys key).Nodup :=
  List.Nodup.filter _ h

/-- A call that ends where it started keeps everything. -/
theorem Keeps.refl_done (s : State) : Keeps s (.done s) :=
  ⟨rfl, rfl, id, id, [], by simp [Outcome.state], by simp⟩

/-- A panic in the state where the call started keeps everything. -/
theorem Keeps.refl_panic (s : State) : Keeps s (.panic s) :=
  ⟨rfl, rfl, id, id, [], by simp [Outcome.state], by simp⟩

/-- Two calls in a row keep what each of them keeps. -/
theorem Keeps.trans (s s1 : State) (o : Outcome) (h1 : Keeps s (.done s1)) (h2 : Keeps s1 o) :
    Keeps s o := by
  obtain ⟨a1, b1, c1, d1, ev1, e1, f1⟩ := h1
  obtain ⟨a2, b2, c2, d2, ev2, e2, f2⟩ := h2
  simp only [Outcome.state] at a1 b1 c1 d1 e1
  refine ⟨a2.trans a1, b2.trans b1, fun h => c2 (c1 h), fun h => d2 (d1 h), ev1 ++ ev2, ?_, ?_⟩
  · rw [e2, e1, List.append_assoc]
  · intro e he
    rcases List.mem_append.1 he with h | h
    · exact f1 e h
    · exact f2 e h

/-- Recording a handler event keeps everything. -/
theorem Keeps.emit (s : State) (e : Event) (he : Event.fromHandler e = true) :
    Keeps s (.done (s.emit e)) :=
  ⟨rfl, rfl, id, id, [e], rfl, by simpa using he⟩

/-- What `handleJoinRoomMessage` keeps. -/
theorem handleJoinRoomMessage_keeps (s : State) (message : Message) :
    Keeps s (handleJoinRoomMessage s message) := by
  unfold handleJoinRoomMessage
  cases hw : s.client.wsServer with
  | none => exact Keeps.refl_panic s
  | some hub =>
    refine ⟨rfl, rfl, ?_, ?_, [_], rfl, ?_⟩
    · intro h hmem
      simp only [Outcome.state, State.emit] at hmem
      rcases (mem_mapInsert _ _ _).1 hmem with h1 | h1
      · cases h1
      · exact h h1
    · intro h
      exact nodup_mapInsert _ _ h
    · simp [Event.fromHandler]

/-- Go `delete(m, key)` of a key that is not in the map changes nothing. -/
theorem mapDelete_of_not_mem (keys : List (Option RoomRef)) (key : Option RoomRef)
    (h : key ∉ keys) : mapDelete keys key = keys := by
  unfold mapDelete
  rw [List.filter_eq_self]
  intro a ha
  have hne : a ≠ key := fun e => h (e ▸ ha)
  simpa using hne

/-- The result of `handleLeaveRoomMessage` when the lookup finds the room. -/
theorem handleLeaveRoomMessage_found (s : State) (hub : Hub) (message : Message)
    (room : RoomRef) (hhub : s.client.wsServer = some hub)
    (hfind : hub.findRoomByName message.Message = some room) :
    handleLeaveRoomMessage s message
      = .done { client := { s.client with Rooms := mapDelete s.client.Rooms (some room) },
                trace := s.trace ++ [.roomUnregister room s.client.ref] } := by
  obtain ⟨⟨ws, wsServer, sendCh, Rooms, ID, Name⟩, trace⟩ := s
  simp only at hhub
  subst hhub
  simp only [handleLeaveRoomMessage, hfind]
  by_cases hmem : some room ∈ Rooms
  · simp [hmem, State.emit, Client.ref]
  · simp [hmem, State.emit, Client.ref, mapDelete_of_not_mem _ _ hmem]

/-- The result of `handleLeaveRoomMessage` when the lookup finds no room: the
send on the channel of the nil room panics. -/
theorem handleLeaveRoomMessage_absent (s : State) (hub : Hub) (message : Message)
    (hhub : s.client.wsServer = some hub)
    (hfind : hub.findRoomByName message.Message = none) :
    handleLeaveRoomMessage s message
      = .panic { client := { s.client with Rooms := mapDelete s.client.Rooms none },
                 trace := s.trace } := by
  obtain ⟨⟨ws, wsServer, sendCh, Rooms, ID, Name⟩, trace⟩ := s
  simp only at hhub
  subst hhub
  simp only [handleLeaveRoomMessage, hfind]
  by_cases hmem : none ∈ Rooms
  · simp [hmem]
  · simp [hmem, mapDelete_of_not_mem _ _ hmem]

/-- What `handleLeaveRoomMessage` keeps. -/
theorem handleLeaveRoomMessage_keeps (s : State) (message : Message) :
    Keeps s (handleLeaveRoomMessage s message) := by
  cases hw : s.client.wsServer with
  | none =>
    have h : handleLeaveRoomMessage s message = .panic s := by
      simp [handleLeaveRoomMessage, hw]
    rw [h]
    exact Keeps.refl_panic s
  | some hub =>
    cases hfind : hub.findRoomByName message.Message with
    | none =>
      rw [handleLeaveRoomMessage_absent s hub message hw hfind]
      refine ⟨rfl, rfl, ?_, ?_, [], by simp [Outcome.state], by simp⟩
      · intro h h1
        exact h ((mem_mapDelete _ _ _).1 h1).2
      · intro h
        exact nodup_mapDelete _ _ h
    | some room =>
      rw [handleLeaveRoomMessage_found s hub message room hw hfind]
      refine ⟨rfl, rfl, ?_, ?_, [_], rfl, by simp [Event.fromHandler]⟩
      · intro h h1
        exact h ((mem_mapDelete _ _ _).1 h1).2
      · intro h
        exact nodup_mapDelete _ _ h

/-- What `handleNewMessage` keeps. -/
theorem handleNewMessage_keeps (s : State) (jsonMsg : Unmarshalled) :
    Keeps s (handleNewMessage s jsonMsg) := by
  have hlog : ∃ s0 : State,
      (match jsonMsg.err with
        | some err => s.emit (.log (.unmarshalError err))
        | none => s) = s0 ∧ Keeps s (.done s0) := by
    cases jsonMsg.err with
    | none => exact ⟨s, rfl, Keeps.refl_done s⟩
    | some err => exact ⟨_, rfl, Keeps.emit s _ rfl⟩
  obtain ⟨s0, hs0, hk0⟩ := hlog
  refine Keeps.trans s s0 _ hk0 ?_
  unfold handleNewMessage
  simp only [hs0]
  split
  · cases hg : Room.GetId jsonMsg.message.Target with
    | none => exact Keeps.refl_panic s0
    | some roomName =>
      cases hw : s0.client.wsServer with
      | none => exact Keeps.refl_panic s0
      | some hub =>
        dsimp only
        cases hfind : hub.findRoomByName roomName with
        | none => exact Keeps.refl_done s0
        | some room => exact Keeps.emit s0 _ rfl
  · split
    · exact handleJoinRoomMessage_keeps s0 _
    · split
      · exact handleLeaveRoomMessage_keeps s0 _
      · exact Keeps.refl_done s0

/-- What the successive handler calls of the inbound loop keep. -/
theorem handleAll_keeps (msgs : List Unmarshalled) (s : State) :
    Keeps s (handleAll s msgs) := by
  induction msgs generalizing s with
  | nil => exact Keeps.refl_done s
  | cons jsonMsg rest ih =>
    have h := handleNewMessage_keeps s jsonMsg
    unfold handleAll
    cases ho : handleNewMessage s jsonMsg with
    | done s1 =>
      rw [ho] at h
      exact Keeps.trans s s1 _ h (ih s1)
    | panic s1 =>
      rw [ho] at h
      exact h

/-- The inbound loop handles the messages read before the first read error and
then runs the deferred `disconnect`, also when a handler has panicked. -/
theorem ReadLoop_eq (msgs : List Unmarshalled) (s : State) (unexpectedClose : Bool)
    (rest : List ReadResult) :
    ReadLoop s (msgs.map .message ++ .error unexpectedClose :: rest)
      = some (match handleAll s msgs with
          | .done s1 =>
            disconnect (if unexpectedClose then s1.emit (.log .unexpectedClose) else s1)
          | .panic s1 => .panic (disconnect s1).state) := by
  induction msgs generalizing s with
  | nil => simp [ReadLoop, handleAll]
  | cons jsonMsg more ih =>
    simp only [List.map_cons, List.cons_append, ReadLoop, handleAll]
    cases ho : handleNewMessage s jsonMsg with
    | done s1 => simpa using ih s1
    | panic s1 => rfl

/-- C6. Started on a Client with an empty room set, `ReadLoop` that meets a read
error after any messages ends, and its trace then is: handler events only, then
one unregister of the client on the global queue of the Hub, then unregisters
of the client on rooms, one for each room of its room set and none for any
other room, then the close of the connection as the last event. When no
handler has panicked the loop returns. -/
theorem ReadLoop_disconnect (client : Client) (msgs : List Unmarshalled)
    (unexpectedClose : Bool) (rest : List ReadResult) (hrooms : client.Rooms = []) :
    ∃ o pre mid,
      ReadLoop { client := client, trace := [] }
          (msgs.map .message ++ .error unexpectedClose :: rest) = some o
      ∧ o.state.trace
          = pre ++ ([.hubUnregister client.ref] ++ mid ++ [.wsClose client.ws])
      ∧ (∀ e ∈ pre, Event.fromHandler e = true)
      ∧ (∀ e ∈ mid, ∃ room, e = .roomUnregister room client.ref)
      ∧ (∀ room, mid.count (.roomUnregister room client.ref)
          = if some room ∈ o.state.client.Rooms then 1 else 0)
      ∧ ((∃ s1, handleAll { client := client, trace := [] } msgs = .done s1) →
          ∃ s2, o = .done s2) := by
  have hk := handleAll_keeps msgs { client := client, trace := [] }
  have key : ∀ s1 : State, Keeps { client := client, trace := [] } (.done s1) →
      ∀ o : Outcome, o.state = (disconnect s1).state →
      o.state.trace
          = s1.trace ++ ([.hubUnregister client.ref]
              ++ unregisterAll client.ref s1.client.Rooms ++ [.wsClose client.ws])
      ∧ (∀ e ∈ s1.trace, Event.fromHandler e = true)
      ∧ (∀ e ∈ unregisterAll client.ref s1.client.Rooms,
          ∃ room, e = .roomUnregister room client.ref)
      ∧ (∀ room, (unregisterAll client.ref s1.client.Rooms).count
            (.roomUnregister room client.ref)
          = if some room ∈ o.state.client.Rooms then 1 else 0) := by
    intro s1 hs1 o ho
    obtain ⟨hws, href, hnil, hnodup, ev, hev, hfrom⟩ := hs1
    simp only [Outcome.state] at hws href hnil hnodup hev
    have hnil1 : none ∉ s1.client.Rooms := hnil (by simp [hrooms])
    have hnodup1 : s1.client.Rooms.Nodup := hnodup (by simp [hrooms])
    have hd : (disconnect s1).state
        = { client := s1.client,
            trace := s1.trace ++ (.hubUnregister s1.client.ref
              :: unregisterAll s1.client.ref s1.client.Rooms ++ [.wsClose s1.client.ws]) } := by
      rw [disconnect_eq s1 hnil1]
      rfl
    rw [hd] at ho
    rw [ho]
    refine ⟨?_, ?_, ?_, ?_⟩
    · simp [href, hws]
    · intro e he
      rw [hev] at he
      exact hfrom e (by simpa using he)
    · intro e he
      exact mem_unregisterAll _ _ e he
    · intro room
      exact count_unregisterAll _ _ hnodup1 room
  rw [ReadLoop_eq]
  cases hall : handleAll { client := client, trace := [] } msgs with
  | done s1 =>
    rw [hall] at hk
    have hk1 : Keeps { client := client, trace := [] }
        (.done (if unexpectedClose then s1.emit (.log .unexpectedClose) else s1)) := by
      cases unexpectedClose with
      | false => simpa using hk
      | true =>
        exact Keeps.trans _ s1 _ hk (by simpa using Keeps.emit s1 (.log .unexpectedClose) rfl)
    have hnil1 : none ∉
        (if unexpectedClose then s1.emit (.log .unexpectedClose) else s1).client.Rooms :=
      hk1.2.2.1 (by simp [hrooms])
    obtain ⟨h1, h2, h3, h4⟩ := key _ hk1
      (disconnect (if unexpectedClose then s1.emit (.log .unexpectedClose) else s1)) rfl
    exact ⟨_, _, _, rfl, h1, h2, h3, h4, fun _ => ⟨_, disconnect_eq _ hnil1⟩⟩
  | panic s1 =>
    rw [hall] at hk
    have hk1 : Keeps { client := client, trace := [] } (.done s1) := hk
    obtain ⟨h1, h2, h3, h4⟩ := key s1 hk1 (.panic (disconnect s1).state) rfl
    refine ⟨_, _, _, rfl, h1, h2, h3, h4, ?_⟩
    rintro ⟨s2, hs2⟩
    cases hs2

/-- Witness for C6: alice joins two rooms and then the read fails. -/
theorem ReadLoop_disconnect_witness :
    ∃ o pre mid,
      ReadLoop { client := alice, trace := [] }
          ([{ message := { Action := JoinRoomAction, Message := "lobby", Target := none,
                           Sender := none }, err := none },
            { message := { Action := JoinRoomAction, Message := "den", Target := none,
                           Sender := none }, err := none }].map .message
            ++ .error true :: []) = some o
      ∧ o.state.trace
          = pre ++ ([.hubUnregister alice.ref] ++ mid ++ [.wsClose alice.ws])
      ∧ (∀ e ∈ pre, Event.fromHandler e = true)
      ∧ (∀ e ∈ mid, ∃ room, e = .roomUnregister room alice.ref)
      ∧ (∀ room, mid.count (.roomUnregister room alice.ref)
          = if some room ∈ o.state.client.Rooms then 1 else 0)
      ∧ ((∃ s1, handleAll { client := alice, trace := [] }
            [{ message := { Action := JoinRoomAction, Message := "lobby", Target := none,
                            Sender := none }, err := none },
             { message := { Action := JoinRoomAction, Message := "den", Target := none,
                            Sender := none }, err := none }] = .done s1) →
          ∃ s2, o = .done s2) :=
  ReadLoop_disconnect alice _ true [] rfl

/-- The most recent command after one more event. -/
theorem lastCommand_snoc (room : RoomRef) (client : ClientRef) (trace : List Event)
    (e : Event) :
    lastCommand room client (trace ++ [e])
      = commandStep room client (lastCommand room client trace) e := by
  simp [lastCommand, List.foldl_append]

/-- The membership set after one more event. -/
theorem roomMembers_snoc (room : RoomRef) (trace : List Event) (e : Event) :
    roomMembers room (trace ++ [e]) = roomStep room (roomMembers room trace) e := by
  simp [roomMembers, List.foldl_append]

/-- A client is a member of a room, after the room has applied the commands of
a trace, exactly when the most recent command of the client to that room is a
register. -/
theorem mem_roomMembers_iff (room : RoomRef) (client : ClientRef) (trace : List Event) :
    client ∈ roomMembers room trace ↔ lastCommand room client trace = some true := by
  induction trace using List.reverseRecOn with
  | nil => simp [roomMembers, lastCommand]
  | append_singleton trace e ih =>
    rw [roomMembers_snoc, lastCommand_snoc]
    cases e with
    | roomRegister r c =>
      simp only [roomStep, commandStep]
      by_cases hr : r = room
      · by_cases hc : c = client
        · subst hc
          by_cases hm : c ∈ roomMembers room trace
          · simp [hr, hm]
          · simp [hr, hm]
        · have hc2 : ¬ (client = c) := fun h => hc h.symm
          by_cases hm : c ∈ roomMembers room trace
          · simp [hr, hc, hm, ih]
          · simp [hr, hc, hm, hc2, ih]
      · simp [hr, ih]
    | roomUnregister r c =>
      simp only [roomStep, commandStep]
      by_cases hr : r = room
      · by_cases hc : c = client
        · subst hc
          simp [hr]
        · have hc2 : ¬ (client = c) := fun h => hc h.symm
          simp [hr, hc, hc2, ih]
      · simp [hr, ih]
    | log _ => simpa [roomStep, commandStep] using ih
    | roomBroadcast _ _ => simpa [roomStep, commandStep] using ih
    | hubRegister _ => simpa [roomStep, commandStep] using ih
    | hubUnregister _ => simpa [roomStep, commandStep] using ih
    | wsClose _ => simpa [roomStep, commandStep] using ih
    | upgrade _ => simpa [roomStep, commandStep] using ih
    | goWriteLoop _ => simpa [roomStep, commandStep] using ih
    | goReadLoop _ => simpa [roomStep, commandStep] using ih

/-- A log line does not disturb the agreement of room set and commands. -/
theorem RoomsMatchCommands.log (s : State) (line : LogLine) (h : RoomsMatchCommands s) :
    RoomsMatchCommands (s.emit (.log line)) := by
  intro room
  simpa [State.emit, lastCommand_snoc, commandStep] using h room

/-- A join keeps the agreement of room set and commands. -/
theorem RoomsMatchCommands.join (s : State) (hub : Hub) (room : RoomRef)
    (h : RoomsMatchCommands s) :
    RoomsMatchCommands
      { client := { s.client with
          wsServer := some hub, Rooms := mapInsert s.client.Rooms (some room) },
        trace := s.trace ++ [.roomRegister room s.client.ref] } := by
  intro x
  have hx := h x
  simp only [Client.ref] at hx ⊢
  rw [lastCommand_snoc, mem_mapInsert]
  simp only [commandStep]
  by_cases hxr : room = x
  · simp [hxr]
  · have hxr2 : ¬ (x = room) := fun e => hxr e.symm
    simp [hxr, hxr2, hx]

/-- A leave of an existing room keeps the agreement of room set and
commands. -/
theorem RoomsMatchCommands.leave (s : State) (room : RoomRef)
    (h : RoomsMatchCommands s) :
    RoomsMatchCommands
      { client := { s.client with Rooms := mapDelete s.client.Rooms (some room) },
        trace := s.trace ++ [.roomUnregister room s.client.ref] } := by
  intro x
  have hx := h x
  simp only [Client.ref] at hx ⊢
  rw [lastCommand_snoc, mem_mapDelete]
  simp only [commandStep]
  by_cases hxr : room = x
  · simp [hxr]
  · have hxr2 : ¬ (x = room) := fun e => hxr e.symm
    simp [hxr, hxr2, hx]

/-- Logging the decode error, if there is one, changes neither the client nor
the agreement of room set and commands. -/
theorem logged_state (s : State) (err : Option String) (h : RoomsMatchCommands s) :
    ∃ s0 : State,
      (match err with
        | some e => s.emit (.log (.unmarshalError e))
        | none => s) = s0
      ∧ s0.client = s.client ∧ RoomsMatchCommands s0 := by
  cases err with
  | none => exact ⟨s, rfl, rfl, h⟩
  | some e => exact ⟨_, rfl, rfl, RoomsMatchCommands.log s _ h⟩

/-- A join-room message on a client with a Hub: `handleNewMessage` returns, the
Hub is the one after the join, and room set and commands still agree. -/
theorem handleNewMessage_join (s : State) (hub : Hub) (jsonMsg : Unmarshalled)
    (hhub : s.client.wsServer = some hub)
    (hact : jsonMsg.message.Action = JoinRoomAction)
    (h : RoomsMatchCommands s) :
    ∃ s1, handleNewMessage s jsonMsg = .done s1
      ∧ s1.client.wsServer = some (hub.afterJoin jsonMsg.message.Message)
      ∧ s1.client.ref = s.client.ref
      ∧ RoomsMatchCommands s1 := by
  obtain ⟨s0, hs0, hc0, hI0⟩ := logged_state s jsonMsg.err h
  have hne : ¬ (JoinRoomAction = SendMessageAction) := by decide
  have hhub0 : s0.client.wsServer = some hub := by rw [hc0]; exact hhub
  unfold handleNewMessage
  simp only [hs0, hact, hne, if_false, if_true]
  cases hfind : hub.findRoomByName jsonMsg.message.Message with
  | some room =>
    rw [handleJoinRoomMessage_found s0 hub
      { Action := JoinRoomAction, Message := jsonMsg.message.Message,
        Target := jsonMsg.message.Target, Sender := some s0.client.ref } room hhub0 hfind]
    refine ⟨_, rfl, ?_, ?_, RoomsMatchCommands.join s0 hub room hI0⟩
    · simp [Hub.afterJoin, hfind]
    · simp [Client.ref, hc0]
  | none =>
    rw [handleJoinRoomMessage_created s0 hub
      { Action := JoinRoomAction, Message := jsonMsg.message.Message,
        Target := jsonMsg.message.Target, Sender := some s0.client.ref } hhub0 hfind]
    refine ⟨_, rfl, ?_, ?_, RoomsMatchCommands.join s0 _ _ hI0⟩
    · simp [Hub.afterJoin, hfind]
    · simp [Client.ref, hc0]

/-- A leave-room message that names an existing room, on a client with a Hub:
`handleNewMessage` returns, the Hub is untouched, and room set and commands
still agree. -/
theorem handleNewMessage_leave (s : State) (hub : Hub) (jsonMsg : Unmarshalled)
    (hhub : s.client.wsServer = some hub)
    (hact : jsonMsg.message.Action = LeaveRoomAction)
    (hfind : (hub.findRoomByName jsonMsg.message.Message).isSome = true)
    (h : RoomsMatchCommands s) :
    ∃ s1, handleNewMessage s jsonMsg = .done s1
      ∧ s1.client.wsServer = some hub
      ∧ s1.client.ref = s.client.ref
      ∧ RoomsMatchCommands s1 := by
  obtain ⟨s0, hs0, hc0, hI0⟩ := logged_state s jsonMsg.err h
  have hne : ¬ (LeaveRoomAction = SendMessageAction) := by decide
  have hne2 : ¬ (LeaveRoomAction = JoinRoomAction) := by decide
  have hhub0 : s0.client.wsServer = some hub := by rw [hc0]; exact hhub
  obtain ⟨room, hroom⟩ := Option.isSome_iff_exists.1 hfind
  unfold handleNewMessage
  simp only [hs0, hact, hne, hne2, if_false, if_true]
  rw [handleLeaveRoomMessage_found s0 hub
    { Action := LeaveRoomAction, Message := jsonMsg.message.Message,
      Target := jsonMsg.message.Target, Sender := some s0.client.ref } room hhub0 hroom]
  refine ⟨_, rfl, ?_, ?_, RoomsMatchCommands.leave s0 room hI0⟩
  · simp [hhub0]
  · simp [Client.ref, hc0]

/-- The condition on a sequence of joins and leaves passes to its beginnings. -/
theorem joinsAndLeaves_take (msgs : List Unmarshalled) (hub : Hub) (k : Nat)
    (h : joinsAndLeaves hub msgs = true) : joinsAndLeaves hub (msgs.take k) = true := by
  induction msgs generalizing hub k with
  | nil => simpa using h
  | cons jsonMsg rest ih =>
    cases k with
    | zero => simp [joinsAndLeaves]
    | succ k =>
      simp only [List.take_succ_cons, joinsAndLeaves] at h ⊢
      by_cases hj : jsonMsg.message.Action = JoinRoomAction
      · simp only [hj, if_true] at h ⊢
        exact ih _ k h
      · by_cases hl : jsonMsg.message.Action = LeaveRoomAction
        · have hne : ¬ (LeaveRoomAction = JoinRoomAction) := by decide
          simp only [hl, hne, if_false, if_true, Bool.and_eq_true] at h ⊢
          exact ⟨h.1, ih _ k h.2⟩
        · simp [hj, hl] at h

/-- A sequence of joins and of leaves of existing rooms is handled without a
panic and keeps the agreement of room set and commands. -/
theorem handleAll_joinsAndLeaves (msgs : List Unmarshalled) (s : State) (hub : Hub)
    (hhub : s.client.wsServer = some hub) (hI : RoomsMatchCommands s)
    (h : joinsAndLeaves hub msgs = true) :
    ∃ s1, handleAll s msgs = .done s1 ∧ s1.client.ref = s.client.ref
      ∧ RoomsMatchCommands s1 := by
  induction msgs generalizing s hub with
  | nil => exact ⟨s, rfl, rfl, hI⟩
  | cons jsonMsg rest ih =>
    simp only [joinsAndLeaves] at h
    by_cases hj : jsonMsg.message.Action = JoinRoomAction
    · simp only [hj, if_true] at h
      obtain ⟨s1, h1, hhub1, href1, hI1⟩ := handleNewMessage_join s hub jsonMsg hhub hj hI
      obtain ⟨s2, h2, href2, hI2⟩ := ih s1 _ hhub1 hI1 h
      exact ⟨s2, by simp [handleAll, h1, h2], href2.trans href1, hI2⟩
    · by_cases hl : jsonMsg.message.Action = LeaveRoomAction
      · have hne : ¬ (LeaveRoomAction = JoinRoomAction) := by decide
        simp only [hl, hne, if_false, if_true, Bool.and_eq_true] at h
        obtain ⟨s1, h1, hhub1, href1, hI1⟩ :=
          handleNewMessage_leave s hub jsonMsg hhub hl h.1 hI
        obtain ⟨s2, h2, href2, hI2⟩ := ih s1 _ hhub1 hI1 h.2
        exact ⟨s2, by simp [handleAll, h1, h2], href2.trans href1, hI2⟩
      · simp [hj, hl] at h

/-- C9. A client with a Hub and an empty room set handles a sequence of
join-room messages and of leave-room messages that name existing rooms. After
each message (that is, after every beginning of the sequence) the handlers
have returned, a room is in the room set of the client exactly when the most
recent command the client has sent to it is a register, and the membership
set the room obtains by applying its commands in order contains the client
exactly when the room is in the room set of the client. -/
theorem rooms_match_commands (client : Client) (hub : Hub) (msgs : List Unmarshalled)
    (k : Nat)
    (hhub : client.wsServer = some hub)
    (hrooms : client.Rooms = [])
    (hmsgs : joinsAndLeaves hub msgs = true) :
    ∃ s, handleAll { client := client, trace := [] } (msgs.take k) = .done s
      ∧ ∀ room,
          (some room ∈ s.client.Rooms
            ↔ lastCommand room client.ref s.trace = some true)
          ∧ (client.ref ∈ roomMembers room s.trace ↔ some room ∈ s.client.Rooms) := by
  have hI : RoomsMatchCommands { client := client, trace := [] } := by
    intro room
    simp [hrooms, lastCommand]
  obtain ⟨s, hs, href, hIs⟩ :=
    handleAll_joinsAndLeaves (msgs.take k) { client := client, trace := [] } hub hhub hI
      (joinsAndLeaves_take msgs hub k hmsgs)
  refine ⟨s, hs, fun room => ?_⟩
  have h1 := hIs room
  rw [href] at h1
  exact ⟨h1, (mem_roomMembers_iff room client.ref s.trace).trans h1.symm⟩

/-- Witness for C9: alice joins lobby, leaves it and joins den; the property is
read off after the second message. -/
theorem rooms_match_commands_witness :
    ∃ s, handleAll { client := alice, trace := [] }
          (([{ message := { Action := JoinRoomAction, Message := "lobby", Target := none,
                            Sender := none }, err := none },
             { message := { Action := LeaveRoomAction, Message := "lobby", Target := none,
                            Sender := none }, err := none },
             { message := { Action := JoinRoomAction, Message := "den", Target := none,
                            Sender := none }, err := none }] : List Unmarshalled).take 2)
          = .done s
      ∧ ∀ room,
          (some room ∈ s.client.Rooms
            ↔ lastCommand room alice.ref s.trace = some true)
          ∧ (alice.ref ∈ roomMembers room s.trace ↔ some room ∈ s.client.Rooms) :=
  rooms_match_commands alice emptyHub _ 2 rfl rfl (by decide)

/-- A send-message whose target is present but names no room of the Hub is
dropped: `handleNewMessage` returns and nothing changes. -/
theorem handleNewMessage_send_unresolved (s : State) (hub : Hub) (message : Message)
    (target : Room)
    (hhub : s.client.wsServer = some hub)
    (hact : message.Action = SendMessageAction)
    (htarget : message.Target = some target)
    (hroom : hub.findRoomByName target.ID = none) :
    handleNewMessage s { message := message, err := none } = .done s := by
  simp [handleNewMessage, hact, htarget, Room.GetId, hhub, hroom]

/-- The inner loop of `WriteLoop` on a channel with `l` in its buffer and no
blocked sender: starting with counter `i` it takes the first
`(l.length - i + 1) / 2` messages and leaves the others in the channel. -/
theorem WriteLoop_drain_buffered (fuel : Nat) (cap i : Nat) (l w : List Bytes)
    (hfuel : (l.length - i + 1) / 2 ≤ fuel) :
    WriteLoop.drain fuel { i := i, sendCh := { cap := cap, buf := l, sendq := [] }, w := w }
      = { i := i + (l.length - i + 1) / 2,
          sendCh := { cap := cap, buf := l.drop ((l.length - i + 1) / 2), sendq := [] },
          w := w ++ l.take ((l.length - i + 1) / 2) } := by
  induction fuel generalizing i l w with
  | zero =>
    have h0 : (l.length - i + 1) / 2 = 0 := Nat.le_zero.1 hfuel
    simp [WriteLoop.drain, h0]
  | succ fuel ih =>
    by_cases hlt : i < l.length
    · cases l with
      | nil => simp at hlt
      | cons m rest =>
        have hc : ((m :: rest).length - i + 1) / 2 = (rest.length - (i + 1) + 1) / 2 + 1 := by
          simp only [List.length_cons] at hlt ⊢
          omega
        have hfuel1 : (rest.length - (i + 1) + 1) / 2 ≤ fuel := by omega
        have hrec := ih (i + 1) rest (w ++ [m]) hfuel1
        simp only [WriteLoop.drain, Chan.len, hlt, if_true, Chan.recv]
        rw [hrec, hc]
        simp [Nat.add_assoc, Nat.add_comm 1]
    · have h0 : (l.length - i + 1) / 2 = 0 := by omega
      simp [WriteLoop.drain, Chan.len, hlt, h0]

/-- One pass of `WriteLoop` on a buffered channel that holds `m` followed by
`l` and has no blocked sender: the frame is `m` and the first half of `l`
(rounded up); the second half of `l` is still in the channel at the flush. -/
theorem WriteLoop_pass_buffered (cap : Nat) (m : Bytes) (l : List Bytes) :
    WriteLoop.pass .ok { cap := cap, buf := m :: l, sendq := [] }
      = .flushed (m :: l.take ((l.length + 1) / 2))
          { cap := cap, buf := l.drop ((l.length + 1) / 2), sendq := [] } := by
  have h := WriteLoop_drain_buffered l.length cap 0 l [m] (by omega)
  simp only [Nat.sub_zero, Nat.zero_add] at h
  simp [WriteLoop.pass, Chan.recv, Chan.len, h]

/-- A receive delivers the first pending message and leaves the others pending
in their order. -/
theorem Chan.recv_pending (ch ch1 : Chan) (m : Bytes) (h : ch.recv = some (m, ch1)) :
    ch.pending = m :: ch1.pending := by
  obtain ⟨cap, buf, sendq⟩ := ch
  cases buf with
  | nil =>
    cases sendq with
    | nil => simp [Chan.recv] at h
    | cons v q =>
      simp only [Chan.recv, Option.some.injEq, Prod.mk.injEq] at h
      obtain ⟨h1, h2⟩ := h
      subst h1 h2
      simp [Chan.pending]
  | cons b rest =>
    cases sendq with
    | nil =>
      simp only [Chan.recv, Option.some.injEq, Prod.mk.injEq] at h
      obtain ⟨h1, h2⟩ := h
      subst h1 h2
      simp [Chan.pending]
    | cons v q =>
      simp only [Chan.recv, Option.some.injEq, Prod.mk.injEq] at h
      obtain ⟨h1, h2⟩ := h
      subst h1 h2
      simp [Chan.pending]

/-- A receive never makes the buffer longer. -/
theorem Chan.recv_len_le (ch ch1 : Chan) (m : Bytes) (h : ch.recv = some (m, ch1)) :
    ch1.len ≤ ch.len := by
  obtain ⟨cap, buf, sendq⟩ := ch
  cases buf with
  | nil =>
    cases sendq with
    | nil => simp [Chan.recv] at h
    | cons v q =>
      simp only [Chan.recv, Option.some.injEq, Prod.mk.injEq] at h
      obtain ⟨_, h2⟩ := h
      subst h2
      simp [Chan.len]
  | cons b rest =>
    cases sendq with
    | nil =>
      simp only [Chan.recv, Option.some.injEq, Prod.mk.injEq] at h
      obtain ⟨_, h2⟩ := h
      subst h2
      simp [Chan.len]
    | cons v q =>
      simp only [Chan.recv, Option.some.injEq, Prod.mk.injEq] at h
      obtain ⟨_, h2⟩ := h
      subst h2
      simp [Chan.len]

/-- A receive on a channel with a value in its buffer does not block. -/
theorem Chan.recv_ne_none (ch : Chan) (h : 0 < ch.len) : ch.recv ≠ none := by
  obtain ⟨cap, buf, sendq⟩ := ch
  cases buf with
  | nil => simp [Chan.len] at h
  | cons b rest => cases sendq <;> simp [Chan.recv]

/-- The inner loop of `WriteLoop` loses nothing and keeps the order: what it has
written followed by what is still pending is what it started from. -/
theorem WriteLoop_drain_pending (fuel : Nat) (d : Drain) :
    (WriteLoop.drain fuel d).w ++ (WriteLoop.drain fuel d).sendCh.pending
      = d.w ++ d.sendCh.pending := by
  induction fuel generalizing d with
  | zero => rfl
  | succ fuel ih =>
    unfold WriteLoop.drain
    by_cases hlt : d.i < d.sendCh.len
    · simp only [hlt, if_true]
      cases hrecv : d.sendCh.recv with
      | none => rfl
      | some p =>
        obtain ⟨m, ch⟩ := p
        simp only []
        rw [ih, Chan.recv_pending _ _ _ hrecv]
        simp
    · simp [hlt]

/-- With as many iterations allowed as the buffer holds values, the inner loop
of `WriteLoop` stops because its condition has become false. -/
theorem WriteLoop_drain_exit (fuel : Nat) (d : Drain) (h : d.sendCh.len ≤ fuel + d.i) :
    ¬ ((WriteLoop.drain fuel d).i < (WriteLoop.drain fuel d).sendCh.len) := by
  induction fuel generalizing d with
  | zero =>
    simp only [WriteLoop.drain]
    omega
  | succ fuel ih =>
    unfold WriteLoop.drain
    by_cases hlt : d.i < d.sendCh.len
    · simp only [hlt, if_true]
      cases hrecv : d.sendCh.recv with
      | none => exact absurd hrecv (Chan.recv_ne_none _ (by omega))
      | some p =>
        obtain ⟨m, ch⟩ := p
        simp only []
        apply ih
        have hle := Chan.recv_len_le _ _ _ hrecv
        simp only
        omega
    · simp [hlt]

/-- A pass of `WriteLoop` that flushes has written at least the message it
took, and the frame followed by what is still pending is what was pending
before, in the same order. -/
theorem WriteLoop_pass_pending (conn : WsWrite) (ch ch1 : Chan) (frame : List Bytes)
    (h : WriteLoop.pass conn ch = .flushed frame ch1) :
    frame ++ ch1.pending = ch.pending ∧ frame ≠ [] := by
  unfold WriteLoop.pass at h
  cases hrecv : ch.recv with
  | none => simp [hrecv] at h
  | some p =>
    obtain ⟨m, ch0⟩ := p
    have hcons := WriteLoop_drain_pending ch0.len { i := 0, sendCh := ch0, w := [m] }
    have hpre : ∃ t, (WriteLoop.drain ch0.len { i := 0, sendCh := ch0, w := [m] }).w = m :: t := by
      have hgen : ∀ (fuel : Nat) (d : Drain) (t : List Bytes), d.w = m :: t →
          ∃ t1, (WriteLoop.drain fuel d).w = m :: t1 := by
        intro fuel
        induction fuel with
        | zero => intro d t hd; exact ⟨t, hd⟩
        | succ fuel ih =>
          intro d t hd
          unfold WriteLoop.drain
          by_cases hlt : d.i < d.sendCh.len
          · simp only [hlt, if_true]
            cases hr : d.sendCh.recv with
            | none => exact ⟨t, hd⟩
            | some q =>
              obtain ⟨m1, c1⟩ := q
              exact ih _ (t ++ [m1]) (by simp [hd])
          · simp only [hlt, if_false]
            exact ⟨t, hd⟩
      exact hgen _ _ [] rfl
    cases conn with
    | nextWriterError => simp [hrecv] at h
    | closeError => simp [hrecv] at h
    | ok =>
      simp only [hrecv, Pass.flushed.injEq] at h
      obtain ⟨h1, h2⟩ := h
      subst h1 h2
      refine ⟨?_, ?_⟩
      · rw [hcons, Chan.recv_pending _ _ _ hrecv]
        rfl
      · obtain ⟨t, ht⟩ := hpre
        rw [ht]
        exact List.cons_ne_nil _ _

/-- With more passes allowed than there are pending messages, `WriteLoop` ends:
it blocks on the empty queue or returns on a connection error. -/
theorem WriteLoop_loop_isSome (fuel : Nat) (conn : List WsWrite) (ch : Chan)
    (frames : List (List Bytes)) (h : ch.pending.length < fuel) :
    (WriteLoop.loop fuel conn ch frames).isSome = true := by
  induction fuel generalizing conn ch frames with
  | zero => omega
  | succ fuel ih =>
    unfold WriteLoop.loop
    cases hp : WriteLoop.pass (conn.headD .ok) ch with
    | blocked => rfl
    | returned ch1 => rfl
    | flushed frame ch1 =>
      obtain ⟨h1, h2⟩ := WriteLoop_pass_pending _ _ _ _ hp
      apply ih
      have hlen := congrArg List.length h1
      rw [List.length_append] at hlen
      have hpos : 0 < frame.length := List.length_pos.2 h2
      omega

/-- The model of `WriteLoop` always yields a result. -/
theorem WriteLoop_isSome (conn : List WsWrite) (client : Client) :
    (WriteLoop conn client).isSome = true :=
  WriteLoop_loop_isSome _ conn client.sendCh [] (Nat.lt_succ_self _)

end Domain
